import Mathlib

/-!
Verification development for the recurring-task scheduling engine and
completion cascades of a personal task manager (web UI + API), together
with two frontend components.

The backend scheduling engine (Occurrence Calculator, Pattern Store,
Subtask Completion Aggregator, Task Completion Orchestrator) is specified
in the design document; its Python sources are not part of the checked
tree, so those components are modelled here directly from the
specification text.  The two frontend components (`useCreateTask` in
`frontend/hooks/useTemplates.ts` and `SubtaskProgress` in
`frontend/components/tasks/SubtaskProgress.tsx`) are embedded from their
TypeScript sources.
-/

namespace Todo

/-! ## Calendar dates -/

/-- Gregorian leap-year rule. -/
def isLeap (y : Nat) : Bool :=
  (y % 4 == 0 && y % 100 != 0) || y % 400 == 0

/-- Number of days in month `m` (1–12) of year `y`. -/
def daysInMonth (y m : Nat) : Nat :=
  if m = 2 then (if isLeap y then 29 else 28)
  else if m = 4 ∨ m = 6 ∨ m = 9 ∨ m = 11 then 30
  else 31

/-- A calendar date, year/month/day. -/
structure Date where
  year : Nat
  month : Nat
  day : Nat
deriving DecidableEq, Repr

/-- A date is valid when its month is 1–12 and its day fits the month. -/
def Date.Valid (d : Date) : Prop :=
  1 ≤ d.month ∧ d.month ≤ 12 ∧ 1 ≤ d.day ∧ d.day ≤ daysInMonth d.year d.month

instance (d : Date) : Decidable d.Valid := by
  unfold Date.Valid; infer_instance

/-- The day after `d`, rolling over months and years. -/
def nextDay (d : Date) : Date :=
  if d.day < daysInMonth d.year d.month then ⟨d.year, d.month, d.day + 1⟩
  else if d.month < 12 then ⟨d.year, d.month + 1, 1⟩
  else ⟨d.year + 1, 1, 1⟩

/-- Advance a date by `n` days. -/
def addDays (d : Date) : Nat → Date
  | 0 => d
  | n + 1 => addDays (nextDay d) n

/-- Number of leap years strictly before year `y` (proleptic, from year 0). -/
def leapsBefore (y : Nat) : Nat :=
  (List.range y).countP (fun k => isLeap k)

/-- One extra day in February of a leap year. -/
def leapBit (y : Nat) : Nat :=
  if isLeap y then 1 else 0

/-- Days in year `y` that fall strictly before month `m` (cumulative
month lengths). -/
def daysBeforeMonth (y : Nat) (m : Nat) : Nat :=
  match m with
  | 1 => 0
  | 2 => 31
  | 3 => 59 + leapBit y
  | 4 => 90 + leapBit y
  | 5 => 120 + leapBit y
  | 6 => 151 + leapBit y
  | 7 => 181 + leapBit y
  | 8 => 212 + leapBit y
  | 9 => 243 + leapBit y
  | 10 => 273 + leapBit y
  | 11 => 304 + leapBit y
  | 12 => 334 + leapBit y
  | _ => 0

/-- Linear day count of a date (days since 0000-01-01). -/
def dayNumber (d : Date) : Nat :=
  365 * d.year + leapsBefore d.year + daysBeforeMonth d.year d.month + (d.day - 1)

/-- Weekday of a date, 0 = Monday … 6 = Sunday. -/
def weekday (d : Date) : Nat :=
  (dayNumber d + 5) % 7

/-- Strict calendar order on dates (lexicographic year/month/day). -/
def dateLtB (a b : Date) : Bool :=
  a.year < b.year ||
    (a.year == b.year && (a.month < b.month ||
      (a.month == b.month && a.day < b.day)))

/-! ## Recurrence patterns

Modelled from the spec: the RecurrencePattern entity of §3 — frequency
(`daily`|`weekly`|`monthly`), interval ≥ 1, weekday set (weekly only;
Monday = 0 … Sunday = 6), day-of-month (monthly only, 1–31), nullable end
date, cached next-occurrence date, active flag. -/

inductive Frequency
  | daily
  | weekly
  | monthly
deriving DecidableEq, Repr

structure RecurrencePattern where
  frequency : Frequency
  interval : Nat
  weekdays : List Nat
  dayOfMonth : Option Nat
  endDate : Option Date
  nextCache : Option Date
  active : Bool
deriving DecidableEq, Repr

/-- A pattern specification as submitted by a client to `set_recurrence`. -/
structure PatternSpec where
  frequency : Frequency
  interval : Nat
  weekdays : List Nat
  dayOfMonth : Option Nat
  endDate : Option Date
deriving DecidableEq, Repr

/-- Modelled from the spec: validation of a pattern spec (§4.3 error
conditions) — interval ≥ 1, day-of-month within 1–31 when present, and a
weekly pattern may name only valid weekdays. -/
def validateSpec (sp : PatternSpec) : Bool :=
  1 ≤ sp.interval &&
    (match sp.dayOfMonth with
     | none => true
     | some d => 1 ≤ d && d ≤ 31) &&
    (match sp.frequency with
     | Frequency.weekly => sp.weekdays.all (fun w => w < 7)
     | _ => true)

/-- Build the persisted pattern from a validated spec. -/
def mkPattern (sp : PatternSpec) : RecurrencePattern :=
  { frequency := sp.frequency
    interval := sp.interval
    weekdays := sp.weekdays
    dayOfMonth := sp.dayOfMonth
    endDate := sp.endDate
    nextCache := none
    active := true }

/-- The pattern store: task id ↦ its recurrence pattern. -/
abbrev Store := List (Nat × RecurrencePattern)

/-- Error taxonomy of the core (§7); only ValidationError is relevant to
the properties below. -/
inductive ApiError
  | validationError
  | notFoundError
  | conflictError
deriving DecidableEq, Repr

/-- Modelled from the spec: `set_recurrence(task_id, pattern_spec)` —
validates the spec before persistence; on failure nothing is stored and a
ValidationError is surfaced, on success the pattern row replaces any
previous pattern of the task. -/
def set_recurrence (store : Store) (tid : Nat) (sp : PatternSpec) :
    Store × Except ApiError RecurrencePattern :=
  if validateSpec sp then
    let p := mkPattern sp
    ((tid, p) :: List.filter (fun q => q.1 != tid) store, Except.ok p)
  else
    (store, Except.error ApiError.validationError)

/-! ## Occurrence Calculator

Modelled from the spec: `next_occurrence(reference_date, pattern)`
(§4.1) — daily advances by `interval` days; weekly with an empty weekday
set advances by `interval × 7` days; weekly with a non-empty set searches
forward for the earliest strictly-later date whose weekday is in the set
(a valid non-empty set always matches within the first interval-week
window of `7 × interval` days, so the block-advance branch never fires for
valid patterns; an invalid set that never matches yields NONE); monthly
moves to reference month + interval months on day-of-month clamped to the
target month's length.  If an end date is set and the computed result is
strictly after it, the result is NONE. -/

/-- Month arithmetic: `(year, month)` advanced by `n` months. -/
def addMonths (y m n : Nat) : Nat × Nat :=
  (y + (m - 1 + n) / 12, (m - 1 + n) % 12 + 1)

/-- Forward scan from offset `k` for at most `fuel` days, looking for a
date whose weekday lies in `wds`. -/
def searchWeekday (ref : Date) (wds : List Nat) : Nat → Nat → Option Date
  | _, 0 => none
  | k, fuel + 1 =>
    if weekday (addDays ref k) ∈ wds then some (addDays ref k)
    else searchWeekday ref wds (k + 1) fuel

/-- Modelled from the spec: the Occurrence Calculator's rule portion
(§4.1, rules for daily/weekly/monthly), before the end-date cutoff. -/
def nextOccurrenceRaw (ref : Date) (p : RecurrencePattern) : Option Date :=
  match p.frequency with
  | Frequency.daily => some (addDays ref p.interval)
  | Frequency.weekly =>
    if p.weekdays.isEmpty then some (addDays ref (7 * p.interval))
    else searchWeekday ref p.weekdays 1 (7 * p.interval)
  | Frequency.monthly =>
    match p.dayOfMonth with
    | none => none
    | some dom =>
      let t := addMonths ref.year ref.month p.interval
      some ⟨t.1, t.2, min dom (daysInMonth t.1 t.2)⟩

/-- Modelled from the spec: `next_occurrence(reference_date, pattern)`
(§4.1) including the end-date edge case: if an end date is set and the
computed result is strictly after it, the result is NONE. -/
def nextOccurrence (ref : Date) (p : RecurrencePattern) : Option Date :=
  match nextOccurrenceRaw ref p with
  | none => none
  | some d =>
    match p.endDate with
    | none => some d
    | some e => if dateLtB e d then none else some d

/-! ## Tasks, subtasks and the Orchestrator -/

inductive Status
  | pending
  | completed
deriving DecidableEq, Repr

structure Subtask where
  description : String
  completed : Bool
  order : Nat
deriving DecidableEq, Repr

structure Task where
  id : Nat
  title : String
  status : Status
  completedAt : Option Date
  dueDate : Option Date
  pattern : Option RecurrencePattern
  subtasks : List Subtask
deriving DecidableEq, Repr

/-- Modelled from the spec: the Subtask Completion Aggregator (§4.2) —
true only when the collection is non-empty and every completion flag is
true. -/
def all_complete (subtasks : List Subtask) : Bool :=
  !subtasks.isEmpty && subtasks.all (fun s => s.completed)

/-- Modelled from the spec: the generation protocol (§4.3) — given the
completed task and its active pattern, consult the Calculator with the
task's due date (or `now` if absent) as reference; on a date, create the
successor (status pending, due date the computed occurrence, pattern
copied with the cache set); on NONE, deactivate the original pattern and
create no successor. -/
def generateSuccessor (now : Date) (t : Task) (p : RecurrencePattern) :
    RecurrencePattern × Option Task :=
  let ref := t.dueDate.getD now
  match nextOccurrence ref p with
  | some d =>
    (p, some { id := t.id + 1
               title := t.title
               status := Status.pending
               completedAt := none
               dueDate := some d
               pattern := some { p with nextCache := some d }
               subtasks := t.subtasks })
  | none => ({ p with active := false }, none)

/-- Modelled from the spec: `complete_task` (§4.3 transition 1, §5
idempotency) — an already-completed task is detected before the generation
protocol runs and nothing happens; otherwise the task transitions to
completed and, if it carries an active pattern, the generation protocol
produces at most one successor. -/
def complete_task (now : Date) (t : Task) : Task × Option Task :=
  match t.status with
  | Status.completed => (t, none)
  | Status.pending =>
    let t1 := { t with status := Status.completed, completedAt := some now }
    match t.pattern with
    | none => (t1, none)
    | some p =>
      if p.active then
        let r := generateSuccessor now t1 p
        ({ t1 with pattern := some r.1 }, r.2)
      else (t1, none)

/-- Toggle the completion flag of the subtask at position `i`. -/
def toggleNth : List Subtask → Nat → List Subtask
  | [], _ => []
  | s :: rest, 0 => { s with completed := !s.completed } :: rest
  | s :: rest, Nat.succ i => s :: toggleNth rest i

/-- Modelled from the spec: `toggle_subtask` (§4.3 transition 2) — after
the toggle, if all subtasks are complete and the parent is pending the
parent is completed as if user-initiated (same recurrence handling); a
reopened subtask never reopens a completed parent. -/
def toggle_subtask (now : Date) (t : Task) (i : Nat) : Task × Option Task :=
  let subs := toggleNth t.subtasks i
  let t1 := { t with subtasks := subs }
  if all_complete subs ∧ t1.status = Status.pending then complete_task now t1
  else (t1, none)

/-- Apply a sequence of subtask toggles, keeping only the parent task. -/
def applyToggles (now : Date) : List Nat → Task → Task
  | [], t => t
  | i :: rest, t => applyToggles now rest (toggle_subtask now t i).1

/-! ## Frontend: `useCreateTask` (frontend/hooks/useTemplates.ts)

Embedding of the optimistic create-task mutation.  The TanStack Query
cache entry for the tasks list is `Option TasksResponse` (absent or
present); `setQueryData` with an updater that returns the old value is a
plain write of that value, and an absent cache stays absent when the
updater short-circuits. -/

/-- The client-side task shape, as populated by the optimistic update in
`useCreateTask.onMutate`. -/
structure FTask where
  id : String
  title : String
  description : Option String
  priority : String
  status : String
  user_id : String
  created_at : String
  updated_at : String
  completed_at : Option String
deriving DecidableEq, Repr

/-- The cached tasks-list response; `data` mirrors `old.data`, which the
updater requires to be present (a missing `data` short-circuits). -/
structure TasksResponse where
  data : Option (List FTask)
deriving DecidableEq, Repr

/-- The query cache entry for `TASKS_QUERY_KEY`. -/
abbrev Cache := Option TasksResponse

/-- The request body accepted by the mutation. -/
structure CreateTaskRequest where
  title : String
  description : Option String
  priority : Option String
deriving DecidableEq, Repr

/-- The optimistic task built in `onMutate`: temporary id, the request's
title, `description || null`, `priority || 'medium'`, status `pending`,
placeholder user and timestamps.  JavaScript `x || y` maps an absent or
empty-string operand to `y`. -/
def optimisticTask (tempId nowIso : String) (newTask : CreateTaskRequest) : FTask :=
  { id := tempId
    title := newTask.title
    description :=
      match newTask.description with
      | none => none
      | some s => if s = "" then none else some s
    priority :=
      match newTask.priority with
      | none => "medium"
      | some s => if s = "" then "medium" else s
    status := "pending"
    user_id := "temp-user"
    created_at := nowIso
    updated_at := nowIso
    completed_at := none }

/-- The cache updater passed to `setQueryData` in `onMutate`: when the
cache or its `data` field is absent the old value is returned unchanged,
otherwise the optimistic task is prepended to `data`. -/
def onMutateUpdater (opt : FTask) (old : Cache) : Cache :=
  match old with
  | none => none
  | some r =>
    match r.data with
    | none => some r
    | some l => some { data := some (opt :: l) }

/-- The `onMutate` handler: snapshot the previous cache value, apply the
optimistic update, and return the new cache together with the rollback
context (`previousTasks`). -/
def useCreateTask_onMutate (tempId nowIso : String) (newTask : CreateTaskRequest)
    (cache : Cache) : Cache × Cache :=
  (onMutateUpdater (optimisticTask tempId nowIso newTask) cache, cache)

/-- The `onError` handler: when the snapshot in the context is truthy it
is written back to the cache, otherwise the cache is left as is. -/
def useCreateTask_onError (context : Cache) (cache : Cache) : Cache :=
  match context with
  | some r => some r
  | none => cache

/-! ## Frontend: `SubtaskProgress` (frontend/components/tasks/SubtaskProgress.tsx) -/

/-- The slice of the frontend subtask shape the component reads. -/
structure FSubtask where
  is_completed : Bool
deriving DecidableEq, Repr

/-- Badge variants available to the component. -/
inductive BadgeVariant
  | default
  | secondary
  | destructive
  | outline
  | success
deriving DecidableEq, Repr

/-- What the component renders when the subtask list is non-empty. -/
structure ProgressView where
  completedCount : Nat
  totalCount : Nat
  percentage : Nat
  variant : BadgeVariant
  badgeText : String
deriving DecidableEq, Repr

/-- Rounding of the nonnegative rational `num / den` to the nearest
integer, halves away from zero — the exact-arithmetic reading of
JavaScript `Math.round(num / den)`. -/
def mathRound (num den : Nat) : Nat :=
  (2 * num + den) / (2 * den)

/-- Embedding of the `SubtaskProgress` component: `none` models rendering
nothing (a null or empty subtask list), and `some v` carries the badge
text, percentage and variant it displays. -/
def SubtaskProgress (subtasks : Option (List FSubtask)) : Option ProgressView :=
  match subtasks with
  | none => none
  | some l =>
    if l.length = 0 then none
    else
      let completedCount := (l.filter (fun s => s.is_completed)).length
      let totalCount := l.length
      let percentage :=
        if 0 < totalCount then mathRound (completedCount * 100) totalCount else 0
      some { completedCount := completedCount
             totalCount := totalCount
             percentage := percentage
             variant :=
               if percentage = 100 then BadgeVariant.success
               else if 0 < percentage then BadgeVariant.default
               else BadgeVariant.secondary
             badgeText :=
               toString completedCount ++ "/" ++ toString totalCount ++
                 " (" ++ toString percentage ++ "%)" }

/-! ## Concrete fixtures used by the witness statements -/

/-- A small reference date: year 2, January 1 — a Tuesday. -/
def date0 : Date := ⟨2, 1, 1⟩

/-- A daily pattern, every day, no end date. -/
def dailyP : RecurrencePattern :=
  { frequency := Frequency.daily
    interval := 1
    weekdays := []
    dayOfMonth := none
    endDate := none
    nextCache := none
    active := true }

/-- A daily pattern whose end date is already behind the reference date. -/
def dailyEndedP : RecurrencePattern :=
  { dailyP with endDate := some ⟨2, 1, 1⟩ }

/-- A weekly pattern on Monday and Wednesday, interval 1. -/
def weeklyMW : RecurrencePattern :=
  { dailyP with frequency := Frequency.weekly, weekdays := [0, 2] }

/-- A monthly pattern on day 31, every 2 months. -/
def monthly31 : RecurrencePattern :=
  { dailyP with frequency := Frequency.monthly, interval := 2, dayOfMonth := some 31 }

/-- A recurring task due on `date0`. -/
def task0 : Task :=
  { id := 0
    title := "groceries"
    status := Status.pending
    completedAt := none
    dueDate := some date0
    pattern := some dailyP
    subtasks := [] }

/-- The same task but with the ended pattern. -/
def taskEnded : Task :=
  { task0 with pattern := some dailyEndedP }

/-- A completed subtask. -/
def subDone : Subtask := { description := "done part", completed := true, order := 0 }

/-- A still-open subtask. -/
def subOpen : Subtask := { description := "open part", completed := false, order := 1 }

/-- A recurring task with three subtasks, two of them complete. -/
def task3 : Task :=
  { task0 with subtasks := [subDone, subOpen, subDone] }

/-- A task with no subtasks at all. -/
def taskNoSubs : Task := { task0 with pattern := none }

/-- An invalid pattern spec: interval 0. -/
def badSpec : PatternSpec :=
  { frequency := Frequency.daily
    interval := 0
    weekdays := []
    dayOfMonth := none
    endDate := none }

/-- A cached frontend task. -/
def fTask0 : FTask :=
  { id := "1"
    title := "existing"
    description := none
    priority := "medium"
    status := "pending"
    user_id := "u"
    created_at := "t0"
    updated_at := "t0"
    completed_at := none }

/-- A cache holding one task. -/
def cache0 : Cache := some { data := some [fTask0] }

/-- A create-task request. -/
def req0 : CreateTaskRequest :=
  { title := "new task", description := none, priority := none }

/-- A subtask list for the progress component: one of two complete. -/
def fsubs0 : List FSubtask := [{ is_completed := true }, { is_completed := false }]

/-- A temporary client-side id. -/
def tmpId0 : String := "temp-1"

/-- A request timestamp. -/
def nowIso0 : String := "2026-01-01T00:00:00Z"

/-! ## Calendar lemmas -/

theorem daysInMonth_ge (y m : Nat) : 28 ≤ daysInMonth y m := by
  unfold daysInMonth
  split
  · split <;> omega
  · split <;> omega

theorem daysInMonth_le (y m : Nat) : daysInMonth y m ≤ 31 := by
  unfold daysInMonth
  split
  · split <;> omega
  · split <;> omega

theorem daysInMonth_feb (y : Nat) : daysInMonth y 2 = 28 + leapBit y := by
  cases h : isLeap y <;> simp [daysInMonth, leapBit, h]

theorem leapsBefore_succ (y : Nat) : leapsBefore (y + 1) = leapsBefore y + leapBit y := by
  cases h : isLeap y <;>
    simp [leapsBefore, List.range_succ, List.countP_append, leapBit, h]

theorem daysBeforeMonth_step (y m : Nat) (h1 : 1 ≤ m) (h2 : m ≤ 11) :
    daysBeforeMonth y (m + 1) = daysBeforeMonth y m + daysInMonth y m := by
  interval_cases m <;> cases h : isLeap y <;>
    simp [daysBeforeMonth, daysInMonth, leapBit, h]

theorem dayNumber_nextDay (d : Date) (h : d.Valid) :
    dayNumber (nextDay d) = dayNumber d + 1 := by
  obtain ⟨hm1, hm2, hd1, hd2⟩ := h
  by_cases hlt : d.day < daysInMonth d.year d.month
  · unfold nextDay
    rw [if_pos hlt]
    simp only [dayNumber]
    omega
  · have hde : d.day = daysInMonth d.year d.month := by omega
    by_cases hm : d.month < 12
    · unfold nextDay
      rw [if_neg hlt, if_pos hm]
      have hstep := daysBeforeMonth_step d.year d.month hm1 (by omega)
      have hge := daysInMonth_ge d.year d.month
      simp only [dayNumber]
      omega
    · have hm12 : d.month = 12 := by omega
      unfold nextDay
      rw [if_neg hlt, if_neg hm]
      have hlb := leapsBefore_succ d.year
      have h334 : daysBeforeMonth d.year 12 = 334 + leapBit d.year := rfl
      have hdim : daysInMonth d.year 12 = 31 := rfl
      rw [hm12] at hde
      rw [hdim] at hde
      simp only [dayNumber, hm12, h334]
      have h0 : daysBeforeMonth (d.year + 1) 1 = 0 := rfl
      rw [h0]
      omega

theorem valid_nextDay (d : Date) (h : d.Valid) : (nextDay d).Valid := by
  obtain ⟨hm1, hm2, hd1, hd2⟩ := h
  by_cases hlt : d.day < daysInMonth d.year d.month
  · unfold nextDay
    rw [if_pos hlt]
    exact ⟨hm1, hm2, show 1 ≤ d.day + 1 by omega,
      show d.day + 1 ≤ daysInMonth d.year d.month by omega⟩
  · by_cases hm : d.month < 12
    · unfold nextDay
      rw [if_neg hlt, if_pos hm]
      have := daysInMonth_ge d.year (d.month + 1)
      exact ⟨show 1 ≤ d.month + 1 by omega, show d.month + 1 ≤ 12 by omega,
        le_refl 1, show 1 ≤ daysInMonth d.year (d.month + 1) by omega⟩
    · unfold nextDay
      rw [if_neg hlt, if_neg hm]
      have := daysInMonth_ge (d.year + 1) 1
      exact ⟨show 1 ≤ 1 by omega, show 1 ≤ 12 by omega,
        le_refl 1, show 1 ≤ daysInMonth (d.year + 1) 1 by omega⟩

theorem valid_addDays (n : Nat) (d : Date) (h : d.Valid) : (addDays d n).Valid := by
  induction n generalizing d with
  | zero => exact h
  | succ n ih => exact ih (nextDay d) (valid_nextDay d h)

theorem dayNumber_addDays (n : Nat) (d : Date) (h : d.Valid) :
    dayNumber (addDays d n) = dayNumber d + n := by
  induction n generalizing d with
  | zero => rfl
  | succ n ih =>
    have h1 := dayNumber_nextDay d h
    have h2 := ih (nextDay d) (valid_nextDay d h)
    show dayNumber (addDays (nextDay d) n) = dayNumber d + (n + 1)
    omega

theorem weekday_lt (d : Date) : weekday d < 7 :=
  Nat.mod_lt _ (by omega)

theorem weekday_addDays (n : Nat) (d : Date) (h : d.Valid) :
    weekday (addDays d n) = (weekday d + n) % 7 := by
  unfold weekday
  rw [dayNumber_addDays n d h]
  omega

/-! ## Weekday search lemmas -/

theorem searchWeekday_found (ref : Date) (wds : List Nat) :
    ∀ (fuel k j0 : Nat), k ≤ j0 → j0 < k + fuel →
      weekday (addDays ref j0) ∈ wds →
      ∃ m, searchWeekday ref wds k fuel = some (addDays ref m) ∧
        k ≤ m ∧ m ≤ j0 ∧ weekday (addDays ref m) ∈ wds ∧
        ∀ j, k ≤ j → j < m → weekday (addDays ref j) ∉ wds := by
  intro fuel
  induction fuel with
  | zero =>
    intro k j0 h1 h2 _
    omega
  | succ fuel ih =>
    intro k j0 h1 h2 hmem
    by_cases hk : weekday (addDays ref k) ∈ wds
    · refine ⟨k, ?_, le_refl k, h1, hk, ?_⟩
      · show (if weekday (addDays ref k) ∈ wds then some (addDays ref k)
              else searchWeekday ref wds (k + 1) fuel) = some (addDays ref k)
        rw [if_pos hk]
      · intro j hj1 hj2
        omega
    · have hne : k ≠ j0 := fun he => hk (he ▸ hmem)
      obtain ⟨m, hs, hm1, hm2, hm3, hm4⟩ := ih (k + 1) j0 (by omega) (by omega) hmem
      refine ⟨m, ?_, by omega, hm2, hm3, ?_⟩
      · show (if weekday (addDays ref k) ∈ wds then some (addDays ref k)
              else searchWeekday ref wds (k + 1) fuel) = some (addDays ref m)
        rw [if_neg hk]
        exact hs
      · intro j hj1 hj2
        rcases Nat.eq_or_lt_of_le hj1 with he | hl
        · exact he ▸ hk
        · exact hm4 j hl hj2

theorem weekday_hit_exists (ref : Date) (href : ref.Valid) (w : Nat) (hw : w < 7) :
    ∃ j, 1 ≤ j ∧ j ≤ 7 ∧ weekday (addDays ref j) = w := by
  have hwd := weekday_lt ref
  refine ⟨if weekday ref < w then w - weekday ref else w + 7 - weekday ref, ?_, ?_, ?_⟩
  · split <;> omega
  · split <;> omega
  · rw [weekday_addDays _ ref href]
    split <;> omega

/-! ## Orchestrator helper lemmas -/

theorem complete_task_of_completed (now : Date) (t : Task)
    (h : t.status = Status.completed) : complete_task now t = (t, none) := by
  unfold complete_task
  rw [h]

theorem complete_task_status (now : Date) (t : Task) (h : t.status = Status.pending) :
    (complete_task now t).1.status = Status.completed := by
  cases hp : t.pattern with
  | none => simp [complete_task, h, hp]
  | some p =>
    cases ha : p.active with
    | false => simp [complete_task, h, hp, ha]
    | true =>
      cases hocc : nextOccurrence (t.dueDate.getD now) p <;>
        simp [complete_task, generateSuccessor, h, hp, ha, hocc]

theorem complete_task_spawns (now : Date) (t : Task) (p : RecurrencePattern) (d : Date)
    (ht : t.status = Status.pending) (hp : t.pattern = some p) (hact : p.active = true)
    (hocc : nextOccurrence (t.dueDate.getD now) p = some d) :
    (complete_task now t).2 =
      some { id := t.id + 1
             title := t.title
             status := Status.pending
             completedAt := none
             dueDate := some d
             pattern := some { p with nextCache := some d }
             subtasks := t.subtasks } ∧
    (complete_task now t).1.status = Status.completed := by
  refine ⟨?_, complete_task_status now t ht⟩
  simp [complete_task, generateSuccessor, ht, hp, hact, hocc]

theorem complete_task_deactivates (now : Date) (t : Task) (p : RecurrencePattern)
    (ht : t.status = Status.pending) (hp : t.pattern = some p) (hact : p.active = true)
    (hocc : nextOccurrence (t.dueDate.getD now) p = none) :
    (complete_task now t).2 = none ∧
    (complete_task now t).1.pattern = some { p with active := false } ∧
    (complete_task now t).1.status = Status.completed := by
  refine ⟨?_, ?_, complete_task_status now t ht⟩ <;>
    simp [complete_task, generateSuccessor, ht, hp, hact, hocc]

/-! ## Subtask and cascade lemmas -/

theorem all_complete_iff (s : List Subtask) :
    all_complete s = true ↔ s ≠ [] ∧ ∀ x ∈ s, x.completed = true := by
  cases s with
  | nil => simp [all_complete]
  | cons a l => simp [all_complete, List.all_eq_true]

theorem toggleNth_all_complete (l : List Subtask) :
    ∀ (i : Nat) (hi : i < l.length),
      (l.get ⟨i, hi⟩).completed = false →
      (∀ j (hj : j < l.length), j ≠ i → (l.get ⟨j, hj⟩).completed = true) →
      all_complete (toggleNth l i) = true := by
  induction l with
  | nil =>
    intro i hi
    simp at hi
  | cons s rest ih =>
    intro i hi hinc hall
    cases i with
    | zero =>
      have hs : s.completed = false := hinc
      have hrest : ∀ x ∈ rest, x.completed = true := by
        intro x hx
        obtain ⟨⟨j, hj⟩, hget⟩ := List.mem_iff_get.mp hx
        have hj1 : j + 1 < (s :: rest).length := by
          simp
          omega
        have := hall (j + 1) hj1 (by omega)
        rw [show (s :: rest).get ⟨j + 1, hj1⟩ = rest.get ⟨j, hj⟩ from rfl] at this
        rw [hget] at this
        exact this
      simp only [toggleNth, hs, Bool.not_false]
      rw [all_complete_iff]
      refine ⟨by simp, ?_⟩
      intro x hx
      rcases List.mem_cons.mp hx with he | hm
      · rw [he]
      · exact hrest x hm
    | succ i1 =>
      have hi1 : i1 < rest.length := by
        simp at hi
        omega
      have hs : s.completed = true := hall 0 (by simp) (by omega)
      have hinc1 : (rest.get ⟨i1, hi1⟩).completed = false := hinc
      have hall1 : ∀ j (hj : j < rest.length), j ≠ i1 →
          (rest.get ⟨j, hj⟩).completed = true := by
        intro j hj hne
        have hj1 : j + 1 < (s :: rest).length := by
          simp
          omega
        have := hall (j + 1) hj1 (by omega)
        rw [show (s :: rest).get ⟨j + 1, hj1⟩ = rest.get ⟨j, hj⟩ from rfl] at this
        exact this
      have hrec := ih i1 hi1 hinc1 hall1
      rw [all_complete_iff] at hrec
      have : all_complete (toggleNth (s :: rest) (i1 + 1)) =
          all_complete (s :: toggleNth rest i1) := rfl
      rw [this, all_complete_iff]
      refine ⟨by simp, ?_⟩
      intro x hx
      rcases List.mem_cons.mp hx with he | hm
      · rw [he]
        exact hs
      · exact hrec.2 x hm

theorem toggle_subtask_eq (now : Date) (t : Task) (i : Nat) :
    toggle_subtask now t i =
      if all_complete (toggleNth t.subtasks i) = true ∧
          ({ t with subtasks := toggleNth t.subtasks i } : Task).status = Status.pending
      then complete_task now { t with subtasks := toggleNth t.subtasks i }
      else ({ t with subtasks := toggleNth t.subtasks i }, none) := rfl

theorem toggle_keeps_completed (now : Date) (t : Task) (i : Nat)
    (h : t.status = Status.completed) :
    (toggle_subtask now t i).1.status = Status.completed := by
  rw [toggle_subtask_eq, if_neg]
  · exact h
  · intro hcond
    have h2 : t.status = Status.pending := hcond.2
    rw [h] at h2
    exact Status.noConfusion h2

theorem applyToggles_keeps_completed (now : Date) (seq : List Nat) :
    ∀ t : Task, t.status = Status.completed →
      (applyToggles now seq t).status = Status.completed := by
  induction seq with
  | nil => intro t h; exact h
  | cons i rest ih =>
    intro t h
    exact ih _ (toggle_keeps_completed now t i h)

theorem toggle_no_cascade (now : Date) (t : Task) (i : Nat)
    (h : t.status = Status.pending)
    (hall : all_complete (toggleNth t.subtasks i) = false) :
    (toggle_subtask now t i).1.status = Status.pending ∧
    (toggle_subtask now t i).2 = none := by
  rw [toggle_subtask_eq, if_neg]
  · exact ⟨h, rfl⟩
  · intro hcond
    exact absurd hcond.1 (by simp [hall])

theorem toggle_empty_subtasks (now : Date) (t : Task) (i : Nat)
    (hsub : t.subtasks = []) (h : t.status = Status.pending) :
    (toggle_subtask now t i).1.status = Status.pending ∧
    (toggle_subtask now t i).1.subtasks = [] := by
  have hnil : toggleNth t.subtasks i = [] := by
    rw [hsub]
    cases i <;> rfl
  have hfalse : all_complete (toggleNth t.subtasks i) = false := by
    rw [hnil]
    rfl
  refine ⟨(toggle_no_cascade now t i h hfalse).1, ?_⟩
  rw [toggle_subtask_eq, if_neg]
  · exact hnil
  · intro hcond
    exact absurd hcond.1 (by simp [hfalse])

theorem toggle_cascades (now : Date) (t : Task) (i : Nat)
    (h : t.status = Status.pending)
    (hall : all_complete (toggleNth t.subtasks i) = true) :
    toggle_subtask now t i =
      complete_task now { t with subtasks := toggleNth t.subtasks i } := by
  rw [toggle_subtask_eq, if_pos ⟨hall, h⟩]

theorem validateSpec_iff (sp : PatternSpec) :
    validateSpec sp = true ↔
      (1 ≤ sp.interval ∧ (∀ dm, sp.dayOfMonth = some dm → 1 ≤ dm ∧ dm ≤ 31) ∧
       (sp.frequency = Frequency.weekly → ∀ w ∈ sp.weekdays, w < 7)) := by
  cases hdm : sp.dayOfMonth <;> cases hf : sp.frequency <;>
    (simp [validateSpec, hdm, hf, List.all_eq_true]; try tauto)

/-! ## Claim theorems -/

/-- C1: completing a pending recurring task once creates exactly one
successor with status pending and due date equal to the computed
occurrence, and a second identical completion request against the
already-completed task creates no additional successor (the
already-completed state short-circuits before the generation protocol). -/
theorem C1_complete_task_idempotent_generation
    (now now2 : Date) (t : Task) (p : RecurrencePattern) (d : Date)
    (ht : t.status = Status.pending) (hp : t.pattern = some p) (hact : p.active = true)
    (hocc : nextOccurrence (t.dueDate.getD now) p = some d) :
    ∃ s, (complete_task now t).2 = some s ∧ s.status = Status.pending ∧
      s.dueDate = some d ∧ (complete_task now t).1.status = Status.completed ∧
      complete_task now2 (complete_task now t).1 = ((complete_task now t).1, none) := by
  obtain ⟨hs, hstat⟩ := complete_task_spawns now t p d ht hp hact hocc
  exact ⟨_, hs, rfl, rfl, hstat, complete_task_of_completed now2 _ hstat⟩

/-- C2: the subtask cascade is one-directional — toggling the single
remaining incomplete subtask of a pending parent completes the parent and
(for an active recurring parent) generates exactly one successor; a toggle
that leaves some subtask incomplete leaves a pending parent pending; and
no sequence of subtask toggles ever moves a completed parent back to
pending. -/
theorem C2_cascade_one_directional :
    (∀ (now : Date) (t : Task) (i : Nat) (hi : i < t.subtasks.length),
      t.status = Status.pending →
      (t.subtasks.get ⟨i, hi⟩).completed = false →
      (∀ j (hj : j < t.subtasks.length), j ≠ i → (t.subtasks.get ⟨j, hj⟩).completed = true) →
      (toggle_subtask now t i).1.status = Status.completed ∧
      ∀ (p : RecurrencePattern) (d : Date), t.pattern = some p → p.active = true →
        nextOccurrence (t.dueDate.getD now) p = some d →
        ∃ s, (toggle_subtask now t i).2 = some s ∧ s.status = Status.pending ∧
          s.dueDate = some d) ∧
    (∀ (now : Date) (t : Task) (i : Nat),
      t.status = Status.pending →
      all_complete (toggleNth t.subtasks i) = false →
      (toggle_subtask now t i).1.status = Status.pending ∧
      (toggle_subtask now t i).2 = none) ∧
    (∀ (now : Date) (seq : List Nat) (t : Task),
      t.status = Status.completed →
      (applyToggles now seq t).status = Status.completed) := by
  refine ⟨?_, fun now t i h hall => toggle_no_cascade now t i h hall,
    fun now seq t h => applyToggles_keeps_completed now seq t h⟩
  intro now t i hi hstat hinc hall
  have hac := toggleNth_all_complete t.subtasks i hi hinc hall
  have heq := toggle_cascades now t i hstat hac
  have ht1s : ({ t with subtasks := toggleNth t.subtasks i } : Task).status =
      Status.pending := hstat
  constructor
  · rw [heq]
    exact complete_task_status now _ ht1s
  · intro p d hp hact hocc
    have hp1 : ({ t with subtasks := toggleNth t.subtasks i } : Task).pattern = some p := hp
    have hocc1 : nextOccurrence
        (({ t with subtasks := toggleNth t.subtasks i } : Task).dueDate.getD now) p =
        some d := hocc
    obtain ⟨hs, _⟩ := complete_task_spawns now _ p d ht1s hp1 hact hocc1
    rw [heq]
    exact ⟨_, hs, rfl, rfl⟩

/-- C3: when a pattern has an end date and the computed next occurrence
is strictly after it, `next_occurrence` returns NONE, and completing a
pending task carrying that pattern deactivates the pattern and creates no
successor. -/
theorem C3_enddate_returns_none_and_deactivates
    (ref : Date) (p : RecurrencePattern) (e d : Date)
    (hend : p.endDate = some e) (hraw : nextOccurrenceRaw ref p = some d)
    (hgt : dateLtB e d = true) :
    nextOccurrence ref p = none ∧
    ∀ (now : Date) (t : Task), t.status = Status.pending → t.pattern = some p →
      p.active = true → t.dueDate.getD now = ref →
      (complete_task now t).2 = none ∧
      (complete_task now t).1.pattern = some { p with active := false } ∧
      (complete_task now t).1.status = Status.completed := by
  have hno : nextOccurrence ref p = none := by
    simp [nextOccurrence, hraw, hend, hgt]
  refine ⟨hno, ?_⟩
  intro now t hts hp hact hdue
  have hocc : nextOccurrence (t.dueDate.getD now) p = none := by
    rw [hdue]
    exact hno
  exact complete_task_deactivates now t p hts hp hact hocc

/-- C4: a monthly pattern advances to reference month + interval months
on the configured day-of-month, clamped to the last valid day of the
target month, so the result never rolls into the following month; with
day-of-month 31 and a February target month the result is the last day of
February, leap-year aware (29 in a leap year, 28 otherwise). -/
theorem C4_monthly_clamped (ref : Date) (p : RecurrencePattern) (dom : Nat)
    (hf : p.frequency = Frequency.monthly) (hdom : p.dayOfMonth = some dom)
    (h1 : 1 ≤ dom) (h31 : dom ≤ 31) (hend : p.endDate = none) :
    nextOccurrence ref p =
      some ⟨(addMonths ref.year ref.month p.interval).1,
            (addMonths ref.year ref.month p.interval).2,
            min dom (daysInMonth (addMonths ref.year ref.month p.interval).1
              (addMonths ref.year ref.month p.interval).2)⟩ ∧
    ∀ y m, addMonths ref.year ref.month p.interval = (y, m) →
      min dom (daysInMonth y m) ≤ daysInMonth y m ∧
      (dom ≤ daysInMonth y m → min dom (daysInMonth y m) = dom) ∧
      Date.Valid ⟨y, m, min dom (daysInMonth y m)⟩ ∧
      (m = 2 → dom = 31 → min dom (daysInMonth y m) = 28 + leapBit y ∧
        min dom (daysInMonth y m) = (if isLeap y then 29 else 28)) := by
  constructor
  · simp [nextOccurrence, nextOccurrenceRaw, hf, hdom, hend]
  · intro y m hym
    have hm : m = (ref.month - 1 + p.interval) % 12 + 1 := by
      unfold addMonths at hym
      exact ((Prod.mk.injEq _ _ _ _).mp hym).2.symm
    have hmod : (ref.month - 1 + p.interval) % 12 < 12 :=
      Nat.mod_lt _ (by omega)
    have hge := daysInMonth_ge y m
    refine ⟨Nat.min_le_right _ _, fun hle => Nat.min_eq_left hle,
      ⟨show 1 ≤ m by omega, show m ≤ 12 by omega,
       show 1 ≤ min dom (daysInMonth y m) from Nat.le_min.mpr ⟨h1, by omega⟩,
       show min dom (daysInMonth y m) ≤ daysInMonth y m from Nat.min_le_right _ _⟩, ?_⟩
    intro hm2 hdom31
    subst hm2
    subst hdom31
    rw [daysInMonth_feb]
    have hlb : leapBit y ≤ 1 := by
      unfold leapBit
      split <;> omega
    refine ⟨by omega, ?_⟩
    cases hleap : isLeap y <;> simp [leapBit, hleap]

/-- C5: a weekly pattern with a non-empty valid weekday set yields the
earliest date strictly after the reference date whose weekday lies in the
set (always found within the first seven days, hence inside the current
interval-week window); for weekday set Monday/Wednesday and interval 1
this is the nearest strictly-later Monday or Wednesday. -/
theorem C5_weekly_nearest (ref : Date) (p : RecurrencePattern)
    (href : ref.Valid) (hf : p.frequency = Frequency.weekly)
    (hne : p.weekdays ≠ []) (hvalid : ∀ w ∈ p.weekdays, w < 7)
    (hint : 1 ≤ p.interval) (hend : p.endDate = none) :
    ∃ k, 1 ≤ k ∧ k ≤ 7 ∧ nextOccurrence ref p = some (addDays ref k) ∧
      weekday (addDays ref k) ∈ p.weekdays ∧
      ∀ j, 1 ≤ j → j < k → weekday (addDays ref j) ∉ p.weekdays := by
  obtain ⟨w, hw⟩ := List.exists_mem_of_ne_nil p.weekdays hne
  obtain ⟨j0, hj1, hj7, hjw⟩ := weekday_hit_exists ref href w (hvalid w hw)
  have hjmem : weekday (addDays ref j0) ∈ p.weekdays := by
    rw [hjw]
    exact hw
  have hfuel : j0 < 1 + 7 * p.interval := by omega
  obtain ⟨m, hs, hm1, hm2, hm3, hm4⟩ :=
    searchWeekday_found ref p.weekdays (7 * p.interval) 1 j0 hj1 hfuel hjmem
  have hempty : p.weekdays.isEmpty = false := by
    cases hpw : p.weekdays
    · exact absurd hpw hne
    · rfl
  refine ⟨m, hm1, by omega, ?_, hm3, fun j a b => hm4 j a b⟩
  simp [nextOccurrence, nextOccurrenceRaw, hf, hempty, hend, hs]

/-- C6: a daily pattern advances the reference date by exactly interval
days, and a weekly pattern with an empty weekday set advances it by
exactly interval × 7 days. -/
theorem C6_daily_weekly_intervals :
    (∀ (ref : Date) (p : RecurrencePattern),
      p.frequency = Frequency.daily → 1 ≤ p.interval → p.endDate = none →
      nextOccurrence ref p = some (addDays ref p.interval)) ∧
    (∀ (ref : Date) (p : RecurrencePattern),
      p.frequency = Frequency.weekly → p.weekdays = [] → p.endDate = none →
      nextOccurrence ref p = some (addDays ref (7 * p.interval))) := by
  constructor
  · intro ref p hf _ hend
    simp [nextOccurrence, nextOccurrenceRaw, hf, hend]
  · intro ref p hf hw hend
    simp [nextOccurrence, nextOccurrenceRaw, hf, hw, hend]

/-- C7: `all_complete` is true exactly for a non-empty collection whose
every completion flag is true; it is false on the empty collection, and a
pending task with zero subtasks is never auto-completed by any sequence
of toggle requests. -/
theorem C7_aggregator :
    (∀ s : List Subtask, all_complete s = true ↔ s ≠ [] ∧ ∀ x ∈ s, x.completed = true) ∧
    all_complete [] = false ∧
    (∀ (now : Date) (seq : List Nat) (t : Task),
      t.subtasks = [] → t.status = Status.pending →
      (applyToggles now seq t).status = Status.pending) := by
  refine ⟨all_complete_iff, rfl, ?_⟩
  intro now seq
  induction seq with
  | nil =>
    intro t _ h2
    exact h2
  | cons i rest ih =>
    intro t h1 h2
    obtain ⟨hs, hsub⟩ := toggle_empty_subtasks now t i h1 h2
    exact ih _ hsub hs

/-- C8: `set_recurrence` rejects any spec with interval < 1, or a present
day-of-month outside 1–31, or a weekly spec naming an invalid weekday,
with a ValidationError and an unchanged store. -/
theorem C8_set_recurrence_validation :
    ∀ (store : Store) (tid : Nat) (sp : PatternSpec),
      (sp.interval < 1 ∨ (∃ dm, sp.dayOfMonth = some dm ∧ (dm < 1 ∨ 31 < dm)) ∨
       (sp.frequency = Frequency.weekly ∧ ∃ w ∈ sp.weekdays, ¬ w < 7)) →
      set_recurrence store tid sp = (store, Except.error ApiError.validationError) := by
  intro store tid sp h
  have hval : validateSpec sp = false := by
    cases hb : validateSpec sp
    · rfl
    · exfalso
      obtain ⟨ha, hbb, hc⟩ := (validateSpec_iff sp).mp hb
      rcases h with h | ⟨dm, hdm, hout⟩ | ⟨hwf, w, hmem, hge⟩
      · omega
      · have := hbb dm hdm
        omega
      · exact hge (hc hwf w hmem)
  simp [set_recurrence, hval]

/-- C9: the create-task mutation is atomic with respect to the client
task cache — `onMutate` snapshots the cache and prepends a temporary
pending task to a cached list, and `onError` restores exactly the
snapshot, so a failed creation leaves the observable task list
unchanged. -/
theorem C9_optimistic_rollback :
    ∀ (cache : Cache) (tempId nowIso : String) (req : CreateTaskRequest),
      useCreateTask_onError (useCreateTask_onMutate tempId nowIso req cache).2
        (useCreateTask_onMutate tempId nowIso req cache).1 = cache ∧
      (optimisticTask tempId nowIso req).status = "pending" ∧
      (∀ r l, cache = some r → r.data = some l →
        (useCreateTask_onMutate tempId nowIso req cache).1 =
          some { data := some (optimisticTask tempId nowIso req :: l) }) := by
  intro cache tempId nowIso req
  refine ⟨?_, rfl, ?_⟩
  · cases cache with
    | none => rfl
    | some r =>
      cases hr : r.data <;>
        simp [useCreateTask_onMutate, useCreateTask_onError, onMutateUpdater, hr]
  · intro r l hc hd
    subst hc
    simp [useCreateTask_onMutate, onMutateUpdater, hd]

/-- C10: the subtask progress component renders nothing for a null or
empty subtask list; for a non-empty list of n subtasks with c completed
it shows badge text "c/n (p%)" where p is c/n scaled to 100 and rounded
to the nearest integer, and uses the success variant exactly when that
percentage is 100. -/
theorem C10_subtask_progress :
    SubtaskProgress none = none ∧
    (∀ l : List FSubtask, l = [] → SubtaskProgress (some l) = none) ∧
    (∀ l : List FSubtask, l ≠ [] →
      ∃ v, SubtaskProgress (some l) = some v ∧
        v.completedCount = (l.filter (fun s => s.is_completed)).length ∧
        v.totalCount = l.length ∧
        v.percentage = mathRound ((l.filter (fun s => s.is_completed)).length * 100)
          l.length ∧
        (v.variant = BadgeVariant.success ↔ v.percentage = 100) ∧
        v.badgeText = toString (l.filter (fun s => s.is_completed)).length ++ "/" ++
          toString l.length ++ " (" ++ toString v.percentage ++ "%)") := by
  refine ⟨rfl, ?_, ?_⟩
  · intro l hl
    subst hl
    rfl
  · intro l hl
    have h0 : ¬ l.length = 0 := by
      simpa using hl
    have hpos : 0 < l.length := Nat.pos_of_ne_zero h0
    refine ⟨{ completedCount := (l.filter (fun s => s.is_completed)).length
              totalCount := l.length
              percentage := mathRound ((l.filter (fun s => s.is_completed)).length * 100)
                l.length
              variant :=
                if mathRound ((l.filter (fun s => s.is_completed)).length * 100)
                    l.length = 100 then BadgeVariant.success
                else if 0 < mathRound ((l.filter (fun s => s.is_completed)).length * 100)
                    l.length then BadgeVariant.default
                else BadgeVariant.secondary
              badgeText :=
                toString (l.filter (fun s => s.is_completed)).length ++ "/" ++
                  toString l.length ++ " (" ++
                  toString (mathRound ((l.filter (fun s => s.is_completed)).length * 100)
                    l.length) ++ "%)" },
      ?_, rfl, rfl, rfl, ?_, rfl⟩
    · simp [SubtaskProgress, h0, hpos]
    · by_cases hp : mathRound ((l.filter (fun s => s.is_completed)).length * 100)
          l.length = 100
      · simp [hp]
      · simp only [hp, if_false, iff_false]
        split <;> simp [hp]

/-! ## Witnesses: the claim theorems applied at concrete inputs -/

/-- Witness for C1 on a concrete daily recurring task. -/
theorem C1_witness :
    ∃ s, (complete_task date0 task0).2 = some s ∧ s.status = Status.pending ∧
      s.dueDate = some ⟨2, 1, 2⟩ ∧
      (complete_task date0 task0).1.status = Status.completed ∧
      complete_task date0 (complete_task date0 task0).1 =
        ((complete_task date0 task0).1, none) :=
  C1_complete_task_idempotent_generation date0 date0 task0 dailyP ⟨2, 1, 2⟩
    rfl rfl rfl rfl

/-- Witness for C2: completing the last open subtask of a three-subtask
pending recurring task completes the parent and spawns one successor. -/
theorem C2_witness :
    (toggle_subtask date0 task3 1).1.status = Status.completed ∧
    ∃ s, (toggle_subtask date0 task3 1).2 = some s ∧ s.status = Status.pending ∧
      s.dueDate = some ⟨2, 1, 2⟩ := by
  obtain ⟨h1, h2⟩ := C2_cascade_one_directional.1 date0 task3 1 (by decide)
    rfl (by decide) (by decide)
  exact ⟨h1, h2 dailyP ⟨2, 1, 2⟩ rfl rfl rfl⟩

/-- Witness for C3 on a pattern whose end date is already behind. -/
theorem C3_witness :
    nextOccurrence date0 dailyEndedP = none ∧
    (complete_task date0 taskEnded).2 = none ∧
    (complete_task date0 taskEnded).1.pattern =
      some { dailyEndedP with active := false } ∧
    (complete_task date0 taskEnded).1.status = Status.completed := by
  have h := C3_enddate_returns_none_and_deactivates date0 dailyEndedP
    ⟨2, 1, 1⟩ ⟨2, 1, 2⟩ rfl rfl rfl
  exact ⟨h.1, h.2 date0 taskEnded rfl rfl rfl rfl⟩

/-- Witness for C4: December year 3 plus two months on day 31 lands on
February 29 of leap year 4. -/
theorem C4_witness :
    nextOccurrence ⟨3, 12, 15⟩ monthly31 = some ⟨4, 2, 29⟩ ∧
    min 31 (daysInMonth 4 2) ≤ daysInMonth 4 2 ∧
    Date.Valid ⟨4, 2, min 31 (daysInMonth 4 2)⟩ ∧
    min 31 (daysInMonth 4 2) = 28 + leapBit 4 ∧
    min 31 (daysInMonth 4 2) = (if isLeap 4 then 29 else 28) := by
  have h := C4_monthly_clamped ⟨3, 12, 15⟩ monthly31 31 rfl rfl
    (by decide) (by decide) rfl
  have h2 := h.2 4 2 rfl
  exact ⟨h.1, h2.1, h2.2.2.1, (h2.2.2.2 rfl rfl).1, (h2.2.2.2 rfl rfl).2⟩

/-- Witness for C5 on the Monday/Wednesday pattern from a Tuesday. -/
theorem C5_witness :
    ∃ k, 1 ≤ k ∧ k ≤ 7 ∧ nextOccurrence date0 weeklyMW = some (addDays date0 k) ∧
      weekday (addDays date0 k) ∈ weeklyMW.weekdays ∧
      ∀ j, 1 ≤ j → j < k → weekday (addDays date0 j) ∉ weeklyMW.weekdays :=
  C5_weekly_nearest date0 weeklyMW (by decide) rfl (by decide) (by decide)
    (by decide) rfl

/-- Witness for C6 on daily interval 1 and weekly interval 1 with empty
weekday set. -/
theorem C6_witness :
    nextOccurrence date0 dailyP = some (addDays date0 1) ∧
    nextOccurrence date0 { dailyP with frequency := Frequency.weekly } =
      some (addDays date0 7) :=
  ⟨C6_daily_weekly_intervals.1 date0 dailyP rfl (by decide) rfl,
   C6_daily_weekly_intervals.2 date0 { dailyP with frequency := Frequency.weekly }
     rfl rfl rfl⟩

/-- Witness for C7 on a one-element list, the empty list, and a task with
no subtasks pushed through three toggle requests. -/
theorem C7_witness :
    (all_complete [subDone] = true ↔
      ([subDone] ≠ [] ∧ ∀ x ∈ [subDone], x.completed = true)) ∧
    all_complete [] = false ∧
    (applyToggles date0 [0, 1, 0] taskNoSubs).status = Status.pending :=
  ⟨C7_aggregator.1 [subDone], C7_aggregator.2.1,
   C7_aggregator.2.2 date0 [0, 1, 0] taskNoSubs rfl rfl⟩

/-- Witness for C8 on a spec with interval 0. -/
theorem C8_witness :
    set_recurrence [] 1 badSpec = ([], Except.error ApiError.validationError) :=
  C8_set_recurrence_validation [] 1 badSpec (Or.inl (by decide))

/-- Witness for C9 on a cache holding one task. -/
theorem C9_witness :
    useCreateTask_onError (useCreateTask_onMutate tmpId0 nowIso0 req0 cache0).2
      (useCreateTask_onMutate tmpId0 nowIso0 req0 cache0).1 = cache0 ∧
    (optimisticTask tmpId0 nowIso0 req0).status = "pending" ∧
    (useCreateTask_onMutate tmpId0 nowIso0 req0 cache0).1 =
      some { data := some (optimisticTask tmpId0 nowIso0 req0 :: [fTask0]) } := by
  have h := C9_optimistic_rollback cache0 tmpId0 nowIso0 req0
  exact ⟨h.1, h.2.1, h.2.2 { data := some [fTask0] } [fTask0] rfl rfl⟩

/-- Witness for C10 on a two-subtask list with one complete. -/
theorem C10_witness :
    ∃ v, SubtaskProgress (some fsubs0) = some v ∧
      v.completedCount = (fsubs0.filter (fun s => s.is_completed)).length ∧
      v.totalCount = fsubs0.length ∧
      v.percentage = mathRound ((fsubs0.filter (fun s => s.is_completed)).length * 100)
        fsubs0.length ∧
      (v.variant = BadgeVariant.success ↔ v.percentage = 100) ∧
      v.badgeText = toString (fsubs0.filter (fun s => s.is_completed)).length ++ "/" ++
        toString fsubs0.length ++ " (" ++ toString v.percentage ++ "%)" :=
  C10_subtask_progress.2.2 fsubs0 (by decide)

end Todo
